import Mathlib

/-!
Shallow embedding of the Spanish identifier validators of
`localflavor/es/validators.py` and `localflavor/es/forms.py`:
the NIF/NIE/CIF identity-card validator (`ESIdentityCardNumberValidator`),
its form-field wrapper (`ESIdentityCardNumberField`), and the bank-account
field (`ESCCCField`).  Strings are modelled as `List Char`; Python integers
as `Nat` (all the arithmetic here is non-negative and never overflows);
a raised `ValidationError` becomes an explicit error constructor keyed by
the error-message name the code raises.
-/

namespace ES

/-- Value of a decimal digit character, as Python `int(ch)` for `ch` in 0-9. -/
def digitVal (c : Char) : Nat := c.toNat - 48

/-- Python `int(s)` on a non-empty string of decimal digits. -/
def digitsToNat (l : List Char) : Nat := l.foldl (fun a c => 10 * a + digitVal c) 0

/-- Python `sum(int(unit) for unit in str(n))`: the decimal digit sum of `n`,
computed over the printed decimal string (`Nat.toDigits 10` models `str`). -/
def strDigitSum (n : Nat) : Nat := ((Nat.toDigits 10 n).map digitVal).sum

/-- Table `self.nif_control` of `ESIdentityCardNumberValidator.__init__`. -/
def nif_control : List Char := "TRWAGMYFPDXBNJZSQVHLCKE".toList

/-- Table `self.cif_control` of `ESIdentityCardNumberValidator.__init__`. -/
def cif_control : List Char := "JABCDEFGHI".toList

/-- Table `self.cif_types` of `ESIdentityCardNumberValidator.__init__`. -/
def cif_types : List Char := "ABCDEFGHJKLMNPQS".toList

/-- Table `self.nie_types` of `ESIdentityCardNumberValidator.__init__`. -/
def nie_types : List Char := "XYZ".toList

/-- Character class of the first regex group `[%s]?` built from
`self.cif_types + self.nie_types` in `__call__`. -/
def prefixAlpha : List Char := cif_types ++ nie_types

/-- Character class of the third regex group `[%s]?` built from
`self.nif_control + self.cif_control` in `__call__`. -/
def suffixAlpha : List Char := nif_control ++ cif_control

/-- Function `cif_get_checksum` of `validators.py`: `s1` sums the digits at
odd 0-based positions, `s2` sums the decimal digit sums of the doubled digits
at even positions, result `(10 - (s1 + s2) % 10) % 10`. -/
def cif_get_checksum (number : List Char) : Nat :=
  let s1 := (((number.enum.filter (fun p => p.1 % 2 == 1)).map
      (fun p => digitVal p.2)).sum)
  let s2 := (((number.enum.filter (fun p => p.1 % 2 == 0)).map
      (fun p => strDigitSum (digitVal p.2 * 2))).sum)
  (10 - (s1 + s2) % 10) % 10

/-- Lambda `nif_get_checksum` of `ESIdentityCardNumberValidator.__call__`:
`self.nif_control[int(d) % 23]`.  The default is irrelevant because the
index `int(d) % 23` is always in bounds. -/
def nif_get_checksum (d : List Char) : Char := nif_control.getD (digitsToNat d % 23) 'T'

/-- Greedy parse of `(\d+)([suffixAlpha]?)$`: the digits group takes the
maximal digit run; what is left must be empty or a single suffix letter.
Because the suffix class has no digits, the regex admits no other match. -/
def parseDS (l : List Char) : Option (List Char × Option Char) :=
  let d := l.takeWhile Char.isDigit
  let r := l.dropWhile Char.isDigit
  if d = [] then none
  else
    match r with
    | [] => some (d, none)
    | [c] => if suffixAlpha.contains c then some (d, some c) else none
    | _ => none

/-- Match of `^([prefixAlpha]?)(\d+)([suffixAlpha]?)$` from `__call__`.
If the first character is in the prefix class the group takes it (no digit
can start there, so backtracking to the empty prefix can never rescue a
failed match); otherwise the prefix group is empty. -/
def matchId (l : List Char) : Option (Option Char × List Char × Option Char) :=
  match l with
  | [] => none
  | c :: rest =>
    if prefixAlpha.contains c then
      (parseDS rest).map (fun p => (some c, p.1, p.2))
    else
      (parseDS l).map (fun p => (none, p.1, p.2))

/-- Result of one validator call: `ok` for a normal return and one
constructor per `error_messages` key the code can raise. -/
inductive IdResult where
  | ok
  | invalid
  | invalidOnlyNif
  | invalidNif
  | invalidNie
  | invalidCif
deriving DecidableEq

/-- Python `letter1 in alphabet` where `letter1` is the (possibly empty)
string matched by an optional one-character group: the empty string is a
substring of everything, so `'' in s` is `True`. -/
def pyIn (o : Option Char) (t : List Char) : Bool :=
  match o with
  | none => true
  | some c => t.contains c

/-- Replace chain `letter1.replace('X', '0').replace('Y', '1').replace('Z', '2')`
applied to the single prefix character. -/
def nieDigit (c : Char) : Char :=
  if c = 'X' then '0' else if c = 'Y' then '1' else if c = 'Z' then '2' else c

/-- Body of `ESIdentityCardNumberValidator.__call__`.  The branches mirror
the source: NIF when the prefix group is empty and a suffix letter is
present; NIE when the prefix is in `nie_types` and a suffix is present;
CIF when `only_nif` is off, the prefix is in `cif_types` (Python substring
membership, so an *empty* prefix also passes) and the digit count is 7 or 8;
otherwise the generic `invalid` error. -/
def esValidate (only_nif : Bool) (value : List Char) : IdResult :=
  match matchId value with
  | none => .invalid
  | some (letter1, number, letter2) =>
    if !letter1.isSome && letter2.isSome then
      if letter2 = some (nif_get_checksum number) then .ok else .invalidNif
    else if pyIn letter1 nie_types && letter2.isSome then
      let l2n := match letter1 with
        | none => []
        | some c => [nieDigit c]
      if letter2 = some (nif_get_checksum (l2n ++ number)) then .ok else .invalidNie
    else if !only_nif && pyIn letter1 cif_types
        && (number.length == 7 || number.length == 8) then
      let payload := if letter2.isSome then number else number.dropLast
      let checksum := cif_get_checksum payload
      let okCheck := match letter2 with
        | some c => c == cif_control.getD checksum ' '
        | none => digitVal (number.getLastD '0') == checksum
      if okCheck then .ok else .invalidCif
    else .invalid

/-- Normalization done by `ESIdentityCardNumberField.clean`:
`value.upper().replace(' ', '').replace('-', '')`.  `Char.toUpper` is the
ASCII upper-casing Python performs on these characters. -/
def normalize (l : List Char) : List Char :=
  ((l.map Char.toUpper).filter (fun c => c != ' ')).filter (fun c => c != '-')

/-- Composition the spec calls `validate_identity_number`: normalize, then
run the identity-card validator with the given `only_nif` configuration. -/
def validate_identity_number (raw : List Char) (only_nif : Bool) : IdResult :=
  esValidate only_nif (normalize raw)

/-- Behaviour of `ESIdentityCardNumberField` with a given `only_nif`
argument: `clean` normalizes, but `__init__` builds the validator list as
`[ESIdentityCardNumberValidator()]` without forwarding `only_nif`, so the
validator always runs with its default `only_nif=False`. -/
def es_identity_field_clean (_only_nif : Bool) (value : List Char) : IdResult :=
  esValidate false (normalize value)

/-- Weight list `control_str = [1, 2, 4, 8, 5, 10, 9, 7, 3, 6]` of
`ESCCCField.clean`. -/
def control_str : List Nat := [1, 2, 4, 8, 5, 10, 9, 7, 3, 6]

/-- Fuel-indexed worker for Python `str.replace`: scan left to right,
replacing each non-overlapping occurrence of `pat`.  The fuel only has to
dominate the length of `s`, which `pyReplace` arranges. -/
def replaceFuel : Nat → List Char → List Char → List Char → List Char
  | 0, s, _, _ => s
  | fuel + 1, s, pat, rep =>
    match s with
    | [] => []
    | c :: rest =>
      if pat.isPrefixOf s then rep ++ replaceFuel fuel (s.drop pat.length) pat rep
      else c :: replaceFuel fuel rest pat rep

/-- Python `s.replace(pat, rep)` for a non-empty pattern. -/
def pyReplace (s pat rep : List Char) : List Char := replaceFuel s.length s pat rep

/-- Lambda `get_checksum` of `ESCCCField.clean`:
`str(11 - sum(int(digit) * int(control) for digit, control in zip(d, control_str)) % 11)`
followed by `.replace('10', '1').replace('11', '0')`. -/
def ccc_get_checksum (d : List Char) : List Char :=
  let s := ((d.zip control_str).map (fun p => digitVal p.1 * p.2)).sum
  pyReplace (pyReplace (Nat.toDigits 10 (11 - s % 11)) "10".toList "1".toList)
    "11".toList "0".toList

/-- Result of `ESCCCField.clean`: the returned string, the structural
`invalid` error raised by the regex field, or the `checksum` error. -/
inductive CCCResult where
  | ok (value : List Char)
  | invalid
  | checksumErr
deriving DecidableEq

/-- Exactly `n` leading decimal digits, returning them and the rest. -/
def takeDigitsN : Nat → List Char → Option (List Char × List Char)
  | 0, l => some ([], l)
  | _ + 1, [] => none
  | n + 1, c :: rest =>
    if c.isDigit then (takeDigitsN n rest).map (fun p => (c :: p.1, p.2)) else none

/-- Optional separator `[ -]?`: the classes of the regex are disjoint from
the digit class, so consuming a leading space or hyphen when present is the
only way the rest of the pattern can match. -/
def dropSep (l : List Char) : List Char :=
  match l with
  | [] => []
  | c :: rest => if c == ' ' || c == '-' then rest else l

/-- Match of `^(\d{4})[ -]?(\d{4})[ -]?(\d{2})[ -]?(\d{10})$` from
`ESCCCField.clean`, yielding the groups (entity, office, checksum, account). -/
def parseCCC (l : List Char) :
    Option (List Char × List Char × List Char × List Char) :=
  match takeDigitsN 4 l with
  | none => none
  | some (entity, r1) =>
    match takeDigitsN 4 (dropSep r1) with
    | none => none
    | some (office, r2) =>
      match takeDigitsN 2 (dropSep r2) with
      | none => none
      | some (checksum, r3) =>
        match takeDigitsN 10 (dropSep r3) with
        | some (account, []) => some (entity, office, checksum, account)
        | _ => none

/-- Body of `ESCCCField.clean`: empty values are passed through (`return ''`),
a regex mismatch is the field's structural `invalid` error, and otherwise the
two computed check digits are compared with the check group; on success the
method returns `value` itself. -/
def ccc_clean (value : List Char) : CCCResult :=
  if value = [] then .ok []
  else
    match parseCCC value with
    | none => .invalid
    | some (entity, office, checksum, account) =>
      if ccc_get_checksum ("00".toList ++ entity ++ office)
          ++ ccc_get_checksum account = checksum then .ok value
      else .checksumErr

/-!  Claim-side definitions, written from the spec's words, used to compare
the source functions against the spec's formulas (C3 and C5). -/

/-- Modelled from the spec (§4.4): one pass over the digit string that adds,
at even 0-based positions, the decimal digit sum of twice the digit and, at
odd positions, the digit itself.  `specCifAltSum true l` is
`odd_sum + even_sum` of the spec. -/
def specCifAltSum : Bool → List Char → Nat
  | _, [] => 0
  | evenPos, c :: rest =>
    (if evenPos then strDigitSum (2 * digitVal c) else digitVal c)
      + specCifAltSum (!evenPos) rest

/-- Modelled from the spec (§4.5): weighted digit sum of a 10-digit segment
under the fixed weight vector, aligned positionally. -/
def specCccWeightedSum (d : List Char) : Nat :=
  ∑ i in Finset.range 10, digitVal (d.getD i '0') * control_str.getD i 0

/-- Modelled from the spec (§4.5): `11 - (weighted sum mod 11)` with the two
boundary outputs remapped, `10 → 1` and `11 → 0`. -/
def specCccChecksum (d : List Char) : Nat :=
  let r := 11 - specCccWeightedSum d % 11
  if r = 10 then 1 else if r = 11 then 0 else r

/-!  Structural predicate the spec's classifier describes (§4.2): an optional
prefix letter from the prefix class, one or more decimal digits, and an
optional suffix letter from the suffix class, consuming the whole string. -/

/-- Decomposition shape of the identity-number regex, stated extensionally. -/
def specShape (l : List Char) : Prop :=
  ∃ (p s : Option Char) (d : List Char),
    l = p.toList ++ d ++ s.toList ∧ d ≠ [] ∧ (∀ c ∈ d, c.isDigit) ∧
    (∀ c, p = some c → c ∈ prefixAlpha) ∧
    (∀ c, s = some c → c ∈ suffixAlpha)

lemma prefixAlpha_not_digit : ∀ c ∈ prefixAlpha, c.isDigit = false := by decide

lemma suffixAlpha_not_digit : ∀ c ∈ suffixAlpha, c.isDigit = false := by decide

lemma cif_types_not_nie : ∀ c ∈ cif_types, c ∉ nie_types := by decide

lemma takeWhile_of_all {p : Char → Bool} {l : List Char} (h : ∀ a ∈ l, p a) :
    l.takeWhile p = l ∧ l.dropWhile p = [] := by
  induction l with
  | nil => simp
  | cons c rest ih =>
    have hc : p c := h c (by simp)
    have hrest : ∀ a ∈ rest, p a := fun a ha => h a (by simp [ha])
    simp [List.takeWhile_cons_of_pos hc, List.dropWhile_cons_of_pos hc, ih hrest]

lemma parseDS_spec (d : List Char) (s : Option Char) (hd : d ≠ [])
    (hdig : ∀ c ∈ d, c.isDigit)
    (hs : ∀ c, s = some c → c ∈ suffixAlpha) :
    parseDS (d ++ s.toList) = some (d, s) := by
  obtain ⟨htake, hdrop⟩ := takeWhile_of_all (p := Char.isDigit) hdig
  cases s with
  | none =>
    simp only [Option.toList, List.append_nil, parseDS, htake, hdrop]
    simp [hd]
  | some c =>
    have hc : c ∈ suffixAlpha := hs c rfl
    have hcd : c.isDigit = false := suffixAlpha_not_digit c hc
    simp only [Option.toList, parseDS,
      List.takeWhile_append_of_pos hdig, List.dropWhile_append_of_pos hdig]
    simp [hcd, hd, hc]

lemma parseDS_sound {l d : List Char} {s : Option Char}
    (h : parseDS l = some (d, s)) :
    l = d ++ s.toList ∧ d ≠ [] ∧ (∀ c ∈ d, c.isDigit) ∧
      (∀ c, s = some c → c ∈ suffixAlpha) := by
  unfold parseDS at h
  by_cases hnil : l.takeWhile Char.isDigit = []
  · simp [hnil] at h
  · simp only [hnil, if_false] at h
    have hdig : ∀ c ∈ l.takeWhile Char.isDigit, c.isDigit := by
      intro c hc
      have := List.all_takeWhile (p := Char.isDigit) (l := l)
      exact List.all_eq_true.mp this c hc
    rcases hr : l.dropWhile Char.isDigit with _ | ⟨c, rest⟩
    · rw [hr] at h
      simp only [Option.some.injEq, Prod.mk.injEq] at h
      obtain ⟨hd1, hs1⟩ := h
      subst hd1; subst hs1
      refine ⟨?_, hnil, hdig, by simp⟩
      conv_lhs => rw [← List.takeWhile_append_dropWhile Char.isDigit l]
      simp [hr]
    · rw [hr] at h
      rcases rest with _ | ⟨c2, rest2⟩
      · by_cases hc : c ∈ suffixAlpha
        · simp only [hc, List.elem_eq_mem, decide_True, if_true,
            Option.some.injEq, Prod.mk.injEq] at h
          obtain ⟨hd1, hs1⟩ := h
          subst hd1; subst hs1
          refine ⟨?_, hnil, hdig, ?_⟩
          · conv_lhs => rw [← List.takeWhile_append_dropWhile Char.isDigit l]
            simp [hr]
          · intro x hx
            injection hx with hx
            subst hx; exact hc
        · simp [hc] at h
      · simp at h

lemma matchId_spec (p : Option Char) (d : List Char) (s : Option Char)
    (hp : ∀ c, p = some c → c ∈ prefixAlpha) (hd : d ≠ [])
    (hdig : ∀ c ∈ d, c.isDigit)
    (hs : ∀ c, s = some c → c ∈ suffixAlpha) :
    matchId (p.toList ++ d ++ s.toList) = some (p, d, s) := by
  have hds := parseDS_spec d s hd hdig hs
  cases p with
  | none =>
    rcases d with _ | ⟨c, rest⟩
    · exact absurd rfl hd
    · have hc : c.isDigit := hdig c (by simp)
      have hmem : c ∉ prefixAlpha := by
        intro hmem
        have := prefixAlpha_not_digit c hmem
        rw [hc] at this; cases this
      have harg : (Option.toList (none : Option Char)) ++ (c :: rest) ++ s.toList
          = c :: (rest ++ s.toList) := by simp
      rw [harg]
      have harg2 : c :: (rest ++ s.toList) = c :: ((c :: rest).tail ++ s.toList) := rfl
      simp only [matchId, hmem, List.elem_eq_mem, decide_False,
        Bool.false_eq_true, if_false]
      rw [show (c :: (rest ++ s.toList)) = (c :: rest) ++ s.toList by simp]
      rw [hds]
      rfl
  | some cp =>
    have hcp : cp ∈ prefixAlpha := hp cp rfl
    have harg : (Option.toList (some cp)) ++ d ++ s.toList
        = cp :: (d ++ s.toList) := by simp
    rw [harg]
    simp only [matchId, hcp, List.elem_eq_mem, decide_True, if_true]
    rw [hds]
    rfl

lemma matchId_sound {l : List Char} {p : Option Char} {d : List Char}
    {s : Option Char} (h : matchId l = some (p, d, s)) :
    l = p.toList ++ d ++ s.toList ∧ d ≠ [] ∧ (∀ c ∈ d, c.isDigit) ∧
      (∀ c, p = some c → c ∈ prefixAlpha) ∧
      (∀ c, s = some c → c ∈ suffixAlpha) := by
  unfold matchId at h
  rcases l with _ | ⟨c, rest⟩
  · simp at h
  · by_cases hc : c ∈ prefixAlpha
    · simp only [hc, List.elem_eq_mem, decide_True, if_true] at h
      rcases hds : parseDS rest with _ | ⟨d2, s2⟩
      · rw [hds] at h; simp at h
      · rw [hds] at h
        simp only [Option.map_some', Option.some.injEq, Prod.mk.injEq] at h
        obtain ⟨hp1, hd1, hs1⟩ := h
        obtain ⟨heq, hne, hdig, hsuf⟩ := parseDS_sound hds
        subst hp1; subst hd1; subst hs1
        refine ⟨by simp [heq], hne, hdig, ?_, hsuf⟩
        intro x hx; injection hx with hx; subst hx; exact hc
    · simp only [hc, List.elem_eq_mem, decide_False, Bool.false_eq_true,
        if_false] at h
      rcases hds : parseDS (c :: rest) with _ | ⟨d2, s2⟩
      · rw [hds] at h; simp at h
      · rw [hds] at h
        simp only [Option.map_some', Option.some.injEq, Prod.mk.injEq] at h
        obtain ⟨hp1, hd1, hs1⟩ := h
        obtain ⟨heq, hne, hdig, hsuf⟩ := parseDS_sound hds
        subst hp1; subst hd1; subst hs1
        exact ⟨by simp [heq], hne, hdig, by simp, hsuf⟩

lemma not_specShape_of_matchId_none {l : List Char} (h : matchId l = none) :
    ¬ specShape l := by
  rintro ⟨p, s, d, heq, hd, hdig, hp, hs⟩
  have hm := matchId_spec p d s hp hd hdig hs
  rw [← heq] at hm
  rw [h] at hm
  cases hm

lemma toUpper_idem (c : Char) : c.toUpper.toUpper = c.toUpper := by
  have he : ∀ x : Char, x.toUpper =
      if x.toNat ≥ 97 ∧ x.toNat ≤ 122 then Char.ofNat (x.toNat - 32) else x :=
    fun x => rfl
  by_cases h : c.toNat ≥ 97 ∧ c.toNat ≤ 122
  · rw [he c, if_pos h]
    have h65 : 65 ≤ c.toNat - 32 := by omega
    have h90 : c.toNat - 32 ≤ 90 := by omega
    generalize hm : c.toNat - 32 = m at h65 h90
    interval_cases m <;> decide
  · have hc : c.toUpper = c := (he c).trans (if_neg h)
    rw [hc, hc]

lemma normalize_append (a b : List Char) :
    normalize (a ++ b) = normalize a ++ normalize b := by
  simp [normalize, List.filter_append, List.map_append]

lemma normalize_sep {t : List Char} (h : ∀ c ∈ t, c = ' ' ∨ c = '-') :
    normalize t = [] := by
  induction t with
  | nil => rfl
  | cons c rest ih =>
    have hr := ih (fun x hx => h x (List.mem_cons_of_mem _ hx))
    rcases h c (List.mem_cons_self _ _) with rfl | rfl <;>
      simpa [normalize, List.filter_cons] using hr

lemma normalize_single_idem (c : Char) :
    normalize (normalize [c]) = normalize [c] := by
  by_cases h1 : c.toUpper = ' '
  · simp [normalize, List.filter_cons, h1]
  · by_cases h2 : c.toUpper = '-'
    · simp [normalize, List.filter_cons, h1, h2]
    · simp [normalize, List.filter_cons, h1, h2, toUpper_idem]

lemma normalize_idem (l : List Char) : normalize (normalize l) = normalize l := by
  induction l with
  | nil => rfl
  | cons c rest ih =>
    have hsplit : (c :: rest) = [c] ++ rest := rfl
    rw [hsplit, normalize_append, normalize_append, normalize_single_idem, ih]

lemma cif_sums_enumFrom (l : List Char) (k : Nat) :
    (((l.enumFrom k).filter (fun p => p.1 % 2 == 1)).map
        (fun p => digitVal p.2)).sum
      + (((l.enumFrom k).filter (fun p => p.1 % 2 == 0)).map
          (fun p => strDigitSum (digitVal p.2 * 2))).sum
      = specCifAltSum (k % 2 == 0) l := by
  induction l generalizing k with
  | nil => simp [specCifAltSum]
  | cons c rest ih =>
    have ih1 := ih (k + 1)
    rcases Nat.mod_two_eq_zero_or_one k with hk | hk
    · have hk1 : (k + 1) % 2 = 1 := by omega
      rw [hk1] at ih1
      rw [List.enumFrom_cons]
      simp only [List.filter_cons, hk, hk1] at *
      simp [specCifAltSum, Nat.mul_comm] at ih1 ⊢
      omega
    · have hk1 : (k + 1) % 2 = 0 := by omega
      rw [hk1] at ih1
      rw [List.enumFrom_cons]
      simp only [List.filter_cons, hk, hk1] at *
      simp [specCifAltSum, Nat.mul_comm] at ih1 ⊢
      omega

lemma ccc_replace_chain (s : Nat) :
    pyReplace (pyReplace (Nat.toDigits 10 (11 - s % 11)) "10".toList "1".toList)
      "11".toList "0".toList
    = [Nat.digitChar (if 11 - s % 11 = 10 then 1 else if 11 - s % 11 = 11 then 0
        else 11 - s % 11)] := by
  obtain ⟨k, hk, hkeq⟩ : ∃ k, k < 11 ∧ s % 11 = k :=
    ⟨s % 11, Nat.mod_lt _ (by omega), rfl⟩
  rw [hkeq]
  interval_cases k <;> decide

lemma ccc_weighted_eq {d : List Char} (h : d.length = 10) :
    ((d.zip control_str).map (fun p => digitVal p.1 * p.2)).sum
      = specCccWeightedSum d := by
  match d, h with
  | [c0, c1, c2, c3, c4, c5, c6, c7, c8, c9], _ =>
    simp [control_str, specCccWeightedSum, Finset.sum_range_succ]
    ring

/-!  Claim theorems -/

/-- C1: an input of one or more digits followed by a single letter of the
combined control alphabets (no prefix letter) is accepted as a valid NIF if
and only if the letter is `nif_control[int(digits) % 23]`, and any other
letter of the 23-letter NIF alphabet yields the NIF checksum error. -/
theorem nif_validation_correct (b : Bool) (d : List Char) (L : Char)
    (hd : d ≠ []) (hdig : ∀ c ∈ d, c.isDigit) (hL : L ∈ suffixAlpha) :
    (esValidate b (d ++ [L]) = .ok ↔ L = nif_get_checksum d) ∧
    (L ∈ nif_control → L ≠ nif_get_checksum d →
      esValidate b (d ++ [L]) = .invalidNif) := by
  have hm : matchId (d ++ [L]) = some (none, d, some L) := by
    have hspec := matchId_spec none d (some L) (by simp) hd hdig
      (by intro c hc; injection hc with hc; subst hc; exact hL)
    simpa using hspec
  unfold esValidate
  rw [hm]
  by_cases heq : L = nif_get_checksum d
  · simp [heq]
  · simp [heq]

/-- Witness for C1: `12345678Z` is a valid NIF (`12345678 % 23 = 14`, and
position 14 of the control alphabet holds `Z`). -/
theorem nif_validation_correct_witness :
    ("12345678".toList ≠ [] ∧ (∀ c ∈ "12345678".toList, c.isDigit) ∧
      'Z' ∈ suffixAlpha) ∧
    ((esValidate false ("12345678".toList ++ ['Z']) = .ok ↔
        'Z' = nif_get_checksum ("12345678".toList)) ∧
      ('Z' ∈ nif_control → 'Z' ≠ nif_get_checksum ("12345678".toList) →
        esValidate false ("12345678".toList ++ ['Z']) = .invalidNif)) :=
  ⟨⟨by decide, by decide, by decide⟩,
    nif_validation_correct false ("12345678".toList) 'Z'
      (by decide) (by decide) (by decide)⟩

/-- C2: an input of an NIE prefix (`X`, `Y` or `Z`), one or more digits and
a suffix letter is accepted if and only if the suffix equals the NIF control
letter of the digit string obtained by prepending the mapped prefix digit
(`X→0`, `Y→1`, `Z→2`); a mismatch yields the NIE checksum error. -/
theorem nie_validation_correct (b : Bool) (P : Char) (d : List Char) (L : Char)
    (hP : P ∈ nie_types) (hd : d ≠ []) (hdig : ∀ c ∈ d, c.isDigit)
    (hL : L ∈ suffixAlpha) :
    (esValidate b (P :: (d ++ [L])) = .ok ↔
      L = nif_get_checksum (nieDigit P :: d)) ∧
    (L ≠ nif_get_checksum (nieDigit P :: d) →
      esValidate b (P :: (d ++ [L])) = .invalidNie) := by
  have hPpre : P ∈ prefixAlpha := List.mem_append_right _ hP
  have hm : matchId (P :: (d ++ [L])) = some (some P, d, some L) := by
    have hspec := matchId_spec (some P) d (some L)
      (by intro c hc; injection hc with hc; subst hc; exact hPpre) hd hdig
      (by intro c hc; injection hc with hc; subst hc; exact hL)
    simpa using hspec
  unfold esValidate
  rw [hm]
  by_cases heq : L = nif_get_checksum (nieDigit P :: d)
  · simp [pyIn, heq, hP]
  · simp [pyIn, heq, hP]

/-- Witness for C2: `X1234567L` is a valid NIE — the mapped digit string is
`01234567`, `1234567 % 23 = 19`, and position 19 of the alphabet holds `L`. -/
theorem nie_validation_correct_witness :
    ('X' ∈ nie_types ∧ "1234567".toList ≠ [] ∧
      (∀ c ∈ "1234567".toList, c.isDigit) ∧ 'L' ∈ suffixAlpha) ∧
    ((esValidate false ('X' :: ("1234567".toList ++ ['L'])) = .ok ↔
        'L' = nif_get_checksum (nieDigit 'X' :: "1234567".toList)) ∧
      ('L' ≠ nif_get_checksum (nieDigit 'X' :: "1234567".toList) →
        esValidate false ('X' :: ("1234567".toList ++ ['L'])) = .invalidNie)) :=
  ⟨⟨by decide, by decide, by decide, by decide⟩,
    nie_validation_correct false 'X' ("1234567".toList) 'L'
      (by decide) (by decide) (by decide) (by decide)⟩

/-- C3: `cif_get_checksum` computes `(10 - (odd_sum + even_sum) % 10) % 10`
where odd positions contribute the digit as-is and even positions contribute
the decimal digit sum of twice the digit (`specCifAltSum true` is that
combined sum, written from the spec); in particular a digit 8 contributes
`1 + 6 = 7`, not 16. -/
theorem cif_checksum_matches_spec :
    (∀ number : List Char,
      cif_get_checksum number = (10 - specCifAltSum true number % 10) % 10) ∧
    strDigitSum (2 * 8) = 7 := by
  refine ⟨?_, by decide⟩
  intro number
  unfold cif_get_checksum
  have h := cif_sums_enumFrom number 0
  simp only [List.enum] at *
  rw [show ((0 : Nat) % 2 == 0) = true from rfl] at h
  omega

/-- C4: for a CIF-shaped input (type letter, 7 or 8 digits, optional check
letter) the check character — the suffix letter when present, otherwise the
last digit — is accepted iff it equals `cif_control[checksum]` as a letter
respectively the checksum as a digit; every other candidate yields the CIF
checksum error.  A letter can never equal the integer checksum and a digit
can never equal the control letter (Python compares them by type), so each
case has exactly one accepted value. -/
theorem cif_validation_correct (T : Char) (d : List Char)
    (hT : T ∈ cif_types) (hdig : ∀ c ∈ d, c.isDigit)
    (hlen : d.length = 7 ∨ d.length = 8) :
    (∀ L, L ∈ suffixAlpha →
      ((esValidate false (T :: (d ++ [L])) = .ok ↔
          L = cif_control.getD (cif_get_checksum d) ' ') ∧
        (L ≠ cif_control.getD (cif_get_checksum d) ' ' →
          esValidate false (T :: (d ++ [L])) = .invalidCif))) ∧
    ((esValidate false (T :: d) = .ok ↔
        digitVal (d.getLastD '0') = cif_get_checksum d.dropLast) ∧
      (digitVal (d.getLastD '0') ≠ cif_get_checksum d.dropLast →
        esValidate false (T :: d) = .invalidCif)) := by
  have hd : d ≠ [] := by
    rcases hlen with h | h <;> (intro hnil; subst hnil; simp at h)
  have hTpre : T ∈ prefixAlpha := List.mem_append_left _ hT
  have hTnie : T ∉ nie_types := cif_types_not_nie T hT
  constructor
  · intro L hL
    have hm : matchId (T :: (d ++ [L])) = some (some T, d, some L) := by
      have hspec := matchId_spec (some T) d (some L)
        (by intro c hc; injection hc with hc; subst hc; exact hTpre) hd hdig
        (by intro c hc; injection hc with hc; subst hc; exact hL)
      simpa using hspec
    unfold esValidate
    rw [hm]
    by_cases heq : L = cif_control.getD (cif_get_checksum d) ' '
    · simp [pyIn, heq, hT, hTnie, hlen]
    · rcases hlen with hl | hl <;> simp [pyIn, heq, hT, hTnie, hl]
  · have hm : matchId (T :: d) = some (some T, d, none) := by
      have hspec := matchId_spec (some T) d none
        (by intro c hc; injection hc with hc; subst hc; exact hTpre) hd hdig
        (by intro c hc; cases hc)
      simpa using hspec
    unfold esValidate
    rw [hm]
    by_cases heq : digitVal (d.getLastD '0') = cif_get_checksum d.dropLast
    · rcases hlen with hl | hl <;> simp [pyIn, heq, hT, hTnie, hl]
    · rcases hlen with hl | hl <;> simp [pyIn, heq, hT, hTnie, hl]

/-- Witness for C4: type letter `A` with digits `58818501` — the checksum of
`5881850` is 1, which matches the trailing check digit 1, so `A58818501` is
a valid CIF. -/
theorem cif_validation_correct_witness :
    ('A' ∈ cif_types ∧ (∀ c ∈ "58818501".toList, c.isDigit) ∧
      ("58818501".toList.length = 7 ∨ "58818501".toList.length = 8)) ∧
    (esValidate false ('A' :: "58818501".toList) = .ok ↔
      digitVal ("58818501".toList.getLastD '0')
        = cif_get_checksum ("58818501".toList.dropLast)) :=
  ⟨⟨by decide, by decide, by decide⟩,
    (cif_validation_correct 'A' ("58818501".toList)
      (by decide) (by decide) (by decide)).2.1⟩

/-- C5: the per-segment CCC checksum equals `11 - (weighted sum mod 11)`
with 10 remapped to 1 and 11 remapped to 0 (`specCccChecksum`, written from
the spec), and the published example holds: the checksum of
`00` + entity `2100` + office `0418` is 4, the checksum of account
`0200051332` is 5, and the CCC `21000418450200051332` validates. -/
theorem ccc_checksum_matches_spec :
    (∀ d : List Char, d.length = 10 →
      ccc_get_checksum d = [Nat.digitChar (specCccChecksum d)]) ∧
    ccc_get_checksum ("0021000418".toList) = ['4'] ∧
    ccc_get_checksum ("0200051332".toList) = ['5'] ∧
    ccc_clean ("21000418450200051332".toList)
      = .ok ("21000418450200051332".toList) := by
  refine ⟨?_, by decide, by decide, by decide⟩
  intro d hd
  simp only [ccc_get_checksum]
  rw [ccc_weighted_eq hd, ccc_replace_chain]
  simp [specCccChecksum]

/-- Witness for C5: the formula applied to the length-10 segment
`0021000418`. -/
theorem ccc_checksum_matches_spec_witness :
    ("0021000418".toList.length = 10) ∧
    ccc_get_checksum ("0021000418".toList)
      = [Nat.digitChar (specCccChecksum ("0021000418".toList))] :=
  ⟨by decide, ccc_checksum_matches_spec.1 ("0021000418".toList) (by decide)⟩

/-- C6 (code bug): `A58818501` is a structurally valid CIF and passes
validation with the default configuration, but with `only_nif=True` the
validator raises the *generic* `invalid` error — the declared
`invalid_only_nif` message (`kind_disallowed`) is never used anywhere in
`__call__` — and the form field never forwards `only_nif` to its validator,
so at field level the CIF is even accepted. -/
theorem only_nif_rejection_uses_generic_invalid :
    esValidate false ("A58818501".toList) = .ok ∧
    esValidate true ("A58818501".toList) = .invalid ∧
    es_identity_field_clean true ("A58818501".toList) = .ok :=
  ⟨by decide, by decide, by decide⟩

/-- C7 counterexample: on a separator-bearing input the CCC field returns
the input with its hyphens intact, which is not the 20-digit canonical
form. -/
theorem ccc_clean_keeps_separators_cex :
    ccc_clean ("2100-0418-45-0200051332".toList)
        = .ok ("2100-0418-45-0200051332".toList) ∧
    "2100-0418-45-0200051332".toList ≠ "21000418450200051332".toList :=
  ⟨by decide, by decide⟩

/-- C7 (amended): on success `ESCCCField.clean` returns the input value
unchanged — separators included — rather than a digits-only canonical
form. -/
theorem ccc_clean_returns_input (v r : List Char) (h : ccc_clean v = .ok r) :
    r = v := by
  unfold ccc_clean at h
  split at h
  · rename_i hv
    injection h with h2
    rw [← h2, hv]
  · split at h
    · simp at h
    · split at h
      · injection h with h2
        exact h2.symm
      · simp at h

/-- Witness for the amended C7: a separator-free valid CCC is returned
unchanged. -/
theorem ccc_clean_returns_input_witness :
    ccc_clean ("21000418450200051332".toList)
        = .ok ("21000418450200051332".toList) ∧
    "21000418450200051332".toList = "21000418450200051332".toList :=
  ⟨by decide,
    ccc_clean_returns_input ("21000418450200051332".toList)
      ("21000418450200051332".toList) (by decide)⟩

/-- C8: every input that does not decompose as optional prefix letter, at
least one digit, optional suffix letter is rejected with the generic
`invalid` (malformed) error, and so is every CIF-type-prefixed input whose
digit count is neither 7 nor 8; neither ever produces a checksum result. -/
theorem malformed_inputs_rejected :
    (∀ (b : Bool) (l : List Char), ¬ specShape l → esValidate b l = .invalid) ∧
    (∀ (b : Bool) (T : Char) (d : List Char) (s : Option Char),
      T ∈ cif_types → (∀ c ∈ d, c.isDigit) → d ≠ [] →
      d.length ≠ 7 → d.length ≠ 8 →
      (∀ c, s = some c → c ∈ suffixAlpha) →
      esValidate b (T :: (d ++ s.toList)) = .invalid) := by
  constructor
  · intro b l hns
    rcases hm : matchId l with _ | ⟨p, d, s⟩
    · unfold esValidate; rw [hm]
    · exfalso
      obtain ⟨heq, hne, hdig, hp, hs⟩ := matchId_sound hm
      exact hns ⟨p, s, d, heq, hne, hdig, hp, hs⟩
  · intro b T d s hT hdig hd h7 h8 hs
    have hTpre : T ∈ prefixAlpha := List.mem_append_left _ hT
    have hTnie : T ∉ nie_types := cif_types_not_nie T hT
    have hm : matchId (T :: (d ++ s.toList)) = some (some T, d, s) := by
      have hspec := matchId_spec (some T) d s
        (by intro c hc; injection hc with hc; subst hc; exact hTpre) hd hdig hs
      simpa using hspec
    unfold esValidate
    rw [hm]
    cases s with
    | none => simp [pyIn, hTnie, h7, h8]
    | some L => simp [pyIn, hTnie, h7, h8]

/-- Witness for C8: the letters-only string `ABC`, the empty string, and the
CIF-prefixed three-digit string `A123` are all rejected as malformed. -/
theorem malformed_inputs_rejected_witness :
    esValidate false ("ABC".toList) = .invalid ∧
    esValidate true ([] : List Char) = .invalid ∧
    esValidate false ('A' :: ("123".toList ++ (none : Option Char).toList))
      = .invalid :=
  ⟨malformed_inputs_rejected.1 false ("ABC".toList)
      (not_specShape_of_matchId_none (by decide)),
    malformed_inputs_rejected.1 true []
      (not_specShape_of_matchId_none (by decide)),
    malformed_inputs_rejected.2 false 'A' ("123".toList) none
      (by decide) (by decide) (by decide) (by decide) (by decide)
      (by intro c hc; cases hc)⟩

/-- C9: normalization (upper-case, then strip spaces and hyphens) is
idempotent, and the normalize-then-validate pipeline gives the same result
when spaces or hyphens are inserted between prefix, digits and suffix. -/
theorem normalize_idem_and_separator_insensitive :
    (∀ l : List Char, normalize (normalize l) = normalize l) ∧
    (∀ (p d s t1 t2 : List Char) (b : Bool),
      (∀ c ∈ t1, c = ' ' ∨ c = '-') → (∀ c ∈ t2, c = ' ' ∨ c = '-') →
      validate_identity_number (p ++ t1 ++ d ++ t2 ++ s) b =
        validate_identity_number (p ++ d ++ s) b) := by
  refine ⟨normalize_idem, ?_⟩
  intro p d s t1 t2 b h1 h2
  unfold validate_identity_number
  rw [show p ++ t1 ++ d ++ t2 ++ s = p ++ (t1 ++ (d ++ (t2 ++ s))) by simp,
    show p ++ d ++ s = p ++ (d ++ s) by simp]
  simp only [normalize_append, normalize_sep h1, normalize_sep h2]
  simp

/-- Witness for C9: `X 1234567-L` validates exactly like `X1234567L`. -/
theorem normalize_separator_insensitive_witness :
    ((∀ c ∈ [' '], c = ' ' ∨ c = '-') ∧ (∀ c ∈ ['-'], c = ' ' ∨ c = '-')) ∧
    validate_identity_number
        ("X".toList ++ [' '] ++ "1234567".toList ++ ['-'] ++ "L".toList) false
      = validate_identity_number
        ("X".toList ++ "1234567".toList ++ "L".toList) false :=
  ⟨⟨by decide, by decide⟩,
    normalize_idem_and_separator_insensitive.2 ("X".toList) ("1234567".toList)
      ("L".toList) [' '] ['-'] false (by decide) (by decide)⟩

/-- C10: every table lookup of the validator is in bounds — the CIF checksum
is below the length of the 10-character CIF control alphabet, the NIF index
`int(digits) % 23` is below the length of the 23-character NIF control
alphabet, and the NIF control-letter lookup always yields a genuine entry of
the table. -/
theorem checksum_indices_in_bounds :
    (∀ number : List Char, cif_get_checksum number < cif_control.length) ∧
    (∀ d : List Char, digitsToNat d % 23 < nif_control.length) ∧
    (∀ d : List Char, nif_get_checksum d ∈ nif_control) := by
  refine ⟨?_, ?_, ?_⟩
  · intro number
    rw [show cif_control.length = 10 from rfl]
    unfold cif_get_checksum
    exact Nat.mod_lt _ (by omega)
  · intro d
    rw [show nif_control.length = 23 from rfl]
    exact Nat.mod_lt _ (by omega)
  · intro d
    have hlt : digitsToNat d % 23 < nif_control.length := by
      rw [show nif_control.length = 23 from rfl]
      exact Nat.mod_lt _ (by omega)
    unfold nif_get_checksum
    rw [List.getD_eq_getElem?_getD, List.getElem?_eq_getElem hlt]
    exact List.getElem_mem hlt

end ES
